import Mathlib

/-!
Shallow embedding of `irunner2icpc_converter.py`, a converter from an ejudge
contest-results XML export to an ICPC (CLICS) `event-feed.ndjson` event log,
together with proofs of the specification claims about it.

Strings coming from the XML document are modelled as Lean `String`s; the
character-level operations the source performs (`str.split`, `str.strip`,
substring membership, decimal formatting) are modelled over `List Char`.
Python `datetime` values (all carrying the fixed `MINSK_TIMEZONE = UTC+3`
offset) are modelled as a count of seconds since the epoch 0000-03-01 00:00:00
of the proleptic Gregorian calendar, in local (UTC+3) wall-clock time;
`datetime + timedelta` is addition of seconds, and `isoformat` renders the
civil date via the standard era-based civil-from-days conversion.
The wall-clock call `datetime.now()` made for each written event's token is
modelled by a `clock : Nat → String` giving the timestamp text observed at the
n-th write.
-/

namespace E2I

/-- JSON-like values appearing in an event's `data` payload. -/
inductive Jval where
  | str (s : String)
  | nat (n : Nat)
  | bool (b : Bool)
  | arr (xs : List Jval)

/-- A JSON object: ordered key/value pairs, as in the Python dict literals. -/
abbrev Jobj := List (String × Jval)

/-- Look up a key in a JSON object (first occurrence, like a Python dict). -/
def Jobj.lookup (d : Jobj) (k : String) : Option Jval :=
  List.lookup k d

/-- Extract a string-valued field from a JSON object, defaulting to `""`. -/
def strField (k : String) (d : Jobj) : String :=
  match d.lookup k with
  | some (Jval.str s) => s
  | _ => ""

/-- The `op` field of an event: `"create"` or `"update"`. -/
inductive Op where
  | create
  | update
deriving DecidableEq, Repr

/-- The clock-independent part of an event: its `type`, `op` and `data`. -/
structure EventSpec where
  type : String
  op : Op
  data : Jobj

/-- A full event line: `type`, `op`, `data` and the uniqueness `token`. -/
structure Event where
  type : String
  op : Op
  data : Jobj
  token : String

/-- Forget the token of an event, keeping type, op and data. -/
def Event.strip (e : Event) : EventSpec :=
  ⟨e.type, e.op, e.data⟩

/- ### Decimal digits and character-level string operations -/

/-- Fuel-driven decimal rendering of a natural number, most significant digit
first, mirroring Python `str(n)` / `f-string` integer formatting. -/
def natDigitsGo : Nat → Nat → List Char → List Char
  | 0, _, acc => acc
  | fuel + 1, n, acc =>
    if n < 10 then Nat.digitChar n :: acc
    else natDigitsGo fuel (n / 10) (Nat.digitChar (n % 10) :: acc)

/-- Decimal digit list of a natural number. -/
def natDigits (n : Nat) : List Char :=
  natDigitsGo (n + 1) n []

/-- Decimal string of a natural number, as Python `str(n)`. -/
def natStr (n : Nat) : String :=
  ⟨natDigits n⟩

/-- Digits of `n` zero-padded to width 2, as Python `f"{n:02d}"` for `n < 100`. -/
def pad2Digits (n : Nat) : List Char :=
  if n < 10 then '0' :: natDigits n else natDigits n

/-- String form of `pad2Digits`. -/
def pad2 (n : Nat) : String :=
  ⟨pad2Digits n⟩

/-- Decimal string of `n` zero-padded to width 4, as Python `f"{n:04d}"`. -/
def pad4 (n : Nat) : String :=
  if n < 10 then "000" ++ natStr n
  else if n < 100 then "00" ++ natStr n
  else if n < 1000 then "0" ++ natStr n
  else natStr n

/-- Numeric value of a decimal digit character. -/
def digitVal (c : Char) : Nat :=
  c.toNat - 48

/-- Read a nonempty all-digit character list as a natural number. -/
def readNat (cs : List Char) : Option Nat :=
  if cs.isEmpty then none
  else if cs.all Char.isDigit then
    some (cs.foldl (fun a c => 10 * a + digitVal c) 0)
  else none

/-- Split a character list on a separator character, mirroring Python
`str.split(sep)`: `n` separators yield `n + 1` (possibly empty) fields. -/
def splitChar (sep : Char) : List Char → List (List Char)
  | [] => [[]]
  | c :: cs =>
    if c = sep then [] :: splitChar sep cs
    else
      match splitChar sep cs with
      | g :: gs => (c :: g) :: gs
      | [] => [[c]]

/-- Substring membership test, mirroring Python `pat in s`. -/
def listContains (pat : List Char) : List Char → Bool
  | [] => pat.isEmpty
  | c :: cs => pat.isPrefixOf (c :: cs) || listContains pat cs

/-- Trim leading and trailing whitespace, mirroring Python `str.strip()`. -/
def stripWs (cs : List Char) : List Char :=
  ((cs.dropWhile Char.isWhitespace).reverse.dropWhile Char.isWhitespace).reverse

/- ### The duration formatter `format_hms_sss` -/

/-- Embeds `format_hms_sss`: formats a timedelta of `totalSeconds` whole
seconds as `H:MM:SS.mmm` via `divmod` by 3600 and 60; the seconds field is
rendered by `f"{seconds:06.3f}"`, which for a whole number of seconds below 60
is its two-digit zero-padded value followed by `".000"`. -/
def format_hms_sss (totalSeconds : Nat) : String :=
  let hours := totalSeconds / 3600
  let remainder := totalSeconds % 3600
  let minutes := remainder / 60
  let seconds := remainder % 60
  natStr hours ++ ":" ++ pad2 minutes ++ ":" ++ pad2 seconds ++ ".000"

/- ### Calendar arithmetic for the fixed-offset datetimes -/

/-- Gregorian leap-year test. -/
def isLeapYear (y : Nat) : Bool :=
  y % 4 == 0 && (y % 100 != 0 || y % 400 == 0)

/-- Number of days in a month of a given year. -/
def daysInMonth (y m : Nat) : Nat :=
  if m = 2 then (if isLeapYear y then 29 else 28)
  else if m = 4 ∨ m = 6 ∨ m = 9 ∨ m = 11 then 30
  else 31

/-- Days from the epoch 0000-03-01 to the civil date `y-m-d` (era-based
civil-to-days conversion of the proleptic Gregorian calendar). -/
def daysFromCivil (y m d : Nat) : Nat :=
  let yAdj := if m ≤ 2 then y - 1 else y
  let era := yAdj / 400
  let yoe := yAdj % 400
  let mp := if m > 2 then m - 3 else m + 9
  let doy := (153 * mp + 2) / 5 + (d - 1)
  let doe := yoe * 365 + yoe / 4 - yoe / 100 + doy
  era * 146097 + doe

/-- Civil date `(y, m, d)` of a day count since the epoch 0000-03-01. -/
def civilFromDays (z : Nat) : Nat × Nat × Nat :=
  let era := z / 146097
  let doe := z % 146097
  let yoe := (doe - doe / 1460 + doe / 36524 - doe / 146096) / 365
  let y := yoe + era * 400
  let doy := doe - (365 * yoe + yoe / 4 - yoe / 100)
  let mp := (5 * doy + 2) / 153
  let d := doy - (153 * mp + 2) / 5 + 1
  let m := if mp < 10 then mp + 3 else mp - 9
  (if m ≤ 2 then y + 1 else y, m, d)

/-- A Python `datetime` with the fixed `MINSK_TIMEZONE` (UTC+3) offset:
seconds since 0000-03-01 00:00:00 in local wall-clock time. -/
abbrev DateTime := Nat

/-- Embeds `datetime.isoformat()` for a zero-microsecond datetime carrying the
fixed UTC+3 offset: `YYYY-MM-DDTHH:MM:SS+03:00`. -/
def isoformat (dt : DateTime) : String :=
  let z := dt / 86400
  let sod := dt % 86400
  match civilFromDays z with
  | (y, m, d) =>
    pad4 y ++ "-" ++ pad2 m ++ "-" ++ pad2 d ++ "T" ++
      pad2 (sod / 3600) ++ ":" ++ pad2 (sod % 3600 / 60) ++ ":" ++
      pad2 (sod % 60) ++ "+03:00"

/-- Embeds `datetime.strptime(s, "%Y/%m/%d %H:%M:%S").replace(tzinfo=MINSK_TIMEZONE)`:
parses the fixed start-time pattern and validates the field ranges that
`strptime`/`datetime` enforce; `none` models the raised `ValueError`. -/
def parseStartTime (s : String) : Option DateTime :=
  match splitChar ' ' s.data with
  | [datePart, timePart] =>
    match splitChar '/' datePart, splitChar ':' timePart with
    | [ys, ms, ds], [hs, mins, ss] => do
      let y ← readNat ys
      let m ← readNat ms
      let d ← readNat ds
      let h ← readNat hs
      let mi ← readNat mins
      let sec ← readNat ss
      if 1 ≤ y ∧ y ≤ 9999 ∧ 1 ≤ m ∧ m ≤ 12 ∧ 1 ≤ d ∧ d ≤ daysInMonth y m ∧
          h ≤ 23 ∧ mi ≤ 59 ∧ sec ≤ 59 then
        some (daysFromCivil y m d * 86400 + h * 3600 + mi * 60 + sec)
      else
        none
    | _, _ => none
  | _ => none

/- ### The verdict translator -/

/-- Embeds the `VERDICT_MAP` dictionary. -/
def verdictMap (s : String) : Option String :=
  if s = "OK" then some "AC"
  else if s = "WA" then some "WA"
  else if s = "PE" then some "PE"
  else if s = "TL" then some "TLE"
  else if s = "ML" then some "MLE"
  else if s = "RT" then some "RTE"
  else none

/-- Embeds `VERDICT_MAP.get(run.get('status'), 'CE')`: the status attribute may
be absent (`none`); any status not in the table falls back to `"CE"`. -/
def translateVerdict (status : Option String) : String :=
  match status with
  | none => "CE"
  | some s => (verdictMap s).getD "CE"

/- ### The input document -/

/-- A `<language>` element. -/
structure Language where
  id : String
  long_name : String

/-- A `<user>` element. -/
structure User where
  id : String
  name : String

/-- A `<problem>` element. -/
structure Problem where
  id : String
  short_name : String
  long_name : String

/-- A `<run>` element; `status` is `run.get('status')`, absent when the
attribute is missing. `time` is the elapsed-seconds attribute, already
converted by `int(...)`. -/
structure Run where
  run_id : String
  time : Nat
  user_id : String
  prob_id : String
  lang_id : String
  status : Option String

/-- The parsed XML document: root attributes (`duration` and `fog_time`
already converted by `int(...)`), the `<name>` child text, and the four
nested element collections. -/
structure Document where
  contest_id : String
  start_time : String
  duration : Nat
  fog_time : Nat
  name : String
  languages : List Language
  users : List User
  problems : List Problem
  runs : List Run

/- ### Event payload builders, one per `write_event` call site -/

/-- Embeds `STANDARD_JUDGEMENT_TYPES`. -/
def standardJudgementTypes : List Jobj :=
  [ [("id", Jval.str "AC"), ("name", Jval.str "Accepted"),
     ("penalty", Jval.bool false), ("solved", Jval.bool true)],
    [("id", Jval.str "WA"), ("name", Jval.str "Wrong Answer"),
     ("penalty", Jval.bool true), ("solved", Jval.bool false)],
    [("id", Jval.str "TLE"), ("name", Jval.str "Time Limit Exceeded"),
     ("penalty", Jval.bool true), ("solved", Jval.bool false)],
    [("id", Jval.str "RTE"), ("name", Jval.str "Run-Time Error"),
     ("penalty", Jval.bool true), ("solved", Jval.bool false)],
    [("id", Jval.str "MLE"), ("name", Jval.str "Memory Limit Exceeded"),
     ("penalty", Jval.bool true), ("solved", Jval.bool false)],
    [("id", Jval.str "PE"), ("name", Jval.str "Presentation Error"),
     ("penalty", Jval.bool true), ("solved", Jval.bool false)],
    [("id", Jval.str "CE"), ("name", Jval.str "Compiler Error"),
     ("penalty", Jval.bool false), ("solved", Jval.bool false)] ]

/-- The `contests` event payload. -/
def contestSpec (doc : Document) (st : DateTime) : EventSpec :=
  ⟨"contests", Op.create,
    [("id", Jval.str doc.contest_id),
     ("name", Jval.str doc.name),
     ("start_time", Jval.str (isoformat st)),
     ("duration", Jval.str (format_hms_sss doc.duration)),
     ("scoreboard_freeze_duration", Jval.str (format_hms_sss doc.fog_time)),
     ("penalty_time", Jval.nat 20)]⟩

/-- The seven fixed `judgement-types` events. -/
def jtSpecs : List EventSpec :=
  standardJudgementTypes.map (fun jt => ⟨"judgement-types", Op.create, jt⟩)

/-- A `languages` event. -/
def langSpec (l : Language) : EventSpec :=
  ⟨"languages", Op.create, [("id", Jval.str l.id), ("name", Jval.str l.long_name)]⟩

/-- An `organizations` event for a derived organization id. -/
def orgSpec (o : String) : EventSpec :=
  ⟨"organizations", Op.create, [("id", Jval.str o), ("name", Jval.str o)]⟩

/-- A `groups` event for a derived group id. -/
def groupSpec (g : String) : EventSpec :=
  ⟨"groups", Op.create, [("id", Jval.str g), ("name", Jval.str g)]⟩

/-- A `teams` event. -/
def teamSpec (u : User) (o g : String) : EventSpec :=
  ⟨"teams", Op.create,
    [("id", Jval.str u.id), ("name", Jval.str u.name),
     ("organization_id", Jval.str o), ("group_ids", Jval.arr [Jval.str g])]⟩

/-- A `problems` event. -/
def problemSpec (p : Problem) : EventSpec :=
  ⟨"problems", Op.create,
    [("id", Jval.str p.id), ("label", Jval.str p.short_name),
     ("name", Jval.str p.long_name)]⟩

/-- A `submissions` event for one run. -/
def submissionSpec (st : DateTime) (r : Run) : EventSpec :=
  ⟨"submissions", Op.create,
    [("id", Jval.str r.run_id), ("team_id", Jval.str r.user_id),
     ("problem_id", Jval.str r.prob_id), ("language_id", Jval.str r.lang_id),
     ("time", Jval.str (isoformat (st + r.time))),
     ("contest_time", Jval.str (format_hms_sss r.time))]⟩

/-- A `judgements` event for one run. -/
def judgementSpec (st : DateTime) (r : Run) : EventSpec :=
  ⟨"judgements", Op.create,
    [("id", Jval.str r.run_id), ("submission_id", Jval.str r.run_id),
     ("judgement_type_id", Jval.str (translateVerdict r.status)),
     ("start_time", Jval.str (isoformat (st + r.time))),
     ("start_contest_time", Jval.str (format_hms_sss r.time)),
     ("end_time", Jval.str (isoformat (st + r.time))),
     ("end_contest_time", Jval.str (format_hms_sss r.time))]⟩

/-- The terminal `state` update event. -/
def stateSpec (doc : Document) (st : DateTime) : EventSpec :=
  ⟨"state", Op.update,
    [("id", Jval.str doc.contest_id),
     ("ended", Jval.str (isoformat (st + doc.duration))),
     ("finalized", Jval.str (isoformat (st + doc.duration)))]⟩

/- ### Organization / group derivation and the participant stage -/

/-- Embeds `team_name.split(':')[0].strip()`. -/
def deriveOrgName (team_name : String) : String :=
  ⟨stripWs (team_name.data.takeWhile (fun c => c ≠ ':'))⟩

/-- Embeds `"Guest" if "Guest team" in team_name else org_name`. -/
def deriveGroupName (team_name : String) : String :=
  if listContains "Guest team".data team_name.data then "Guest"
  else deriveOrgName team_name

/-- Embeds the `for user in ...users` loop: `orgs` and `groups` are the key
sets of the two deduplication dicts (each stored record is the function
`k ↦ {'id': k, 'name': k}` of its key, read only at insertion). -/
def processUsers (orgs groups : List String) : List User → List EventSpec
  | [] => []
  | u :: rest =>
    let team_name := u.name
    let org_name := deriveOrgName team_name
    let orgEvs := if org_name ∈ orgs then [] else [orgSpec org_name]
    let orgs2 := if org_name ∈ orgs then orgs else orgs ++ [org_name]
    let group_id := deriveGroupName team_name
    let groupEvs := if group_id ∈ groups then [] else [groupSpec group_id]
    let groups2 := if group_id ∈ groups then groups else groups ++ [group_id]
    orgEvs ++ groupEvs ++ (teamSpec u org_name group_id :: processUsers orgs2 groups2 rest)

/- ### The full pipeline -/

/-- Run-stage events: for each run in document order, a `submissions` event
immediately followed by its `judgements` event. -/
def runSpecs (st : DateTime) (runs : List Run) : List EventSpec :=
  runs.flatMap (fun r => [submissionSpec st r, judgementSpec st r])

/-- Metadata sections written before the participant stage. -/
def preSpecs (doc : Document) (st : DateTime) : List EventSpec :=
  contestSpec doc st :: (jtSpecs ++ doc.languages.map langSpec)

/-- Sections written after the participant stage. -/
def postSpecs (doc : Document) (st : DateTime) : List EventSpec :=
  doc.problems.map problemSpec ++ runSpecs st doc.runs ++ [stateSpec doc st]

/-- The clock-independent content of the event feed produced by
`create_icpc_package`, in emission order; `none` models the uncaught
`ValueError` raised by `strptime` on a malformed `start_time`. -/
def eventSpecs (doc : Document) : Option (List EventSpec) :=
  (parseStartTime doc.start_time).map fun st =>
    preSpecs doc st ++ processUsers [] [] doc.users ++ postSpecs doc st

/-- The `data['id']` interpolated into a token (always a string here). -/
def dataId (d : Jobj) : String :=
  match d.lookup "id" with
  | some (Jval.str s) => s
  | _ => ""

/-- Embeds `write_event` / `write_update_event` for one record: the token is
`f"{type}-{id}-{now}"`, with the literal `update` inserted for update events. -/
def mkEvent (now : String) (s : EventSpec) : Event :=
  match s.op with
  | Op.create => ⟨s.type, s.op, s.data, s.type ++ "-" ++ dataId s.data ++ "-" ++ now⟩
  | Op.update => ⟨s.type, s.op, s.data, s.type ++ "-" ++ dataId s.data ++ "-update-" ++ now⟩

/-- Attach tokens to a spec list: the k-th written event observes `clock k`
as its `datetime.now()` text. -/
def attachTokens (clock : Nat → String) : Nat → List EventSpec → List Event
  | _, [] => []
  | k, s :: rest => mkEvent (clock k) s :: attachTokens clock (k + 1) rest

/-- The full event feed written by `create_icpc_package` for a parsed
document, given the wall-clock readings `clock`. -/
def createIcpcEvents (doc : Document) (clock : Nat → String) : Option (List Event) :=
  (eventSpecs doc).map (attachTokens clock 0)

/- ### Top-level driver with its observable effects -/

/-- Observable effects of one `create_icpc_package` run: whether the output
directory was ensured to exist (`os.makedirs(..., exist_ok=True)`), the lines
printed to standard output, the content of `event-feed.ndjson` if it was
written, and whether the run died with an uncaught exception. -/
structure Outcome where
  dirCreated : Bool
  printed : List String
  feedFile : Option (List Event)
  crashed : Bool

/-- A single-quote character, as written by the Python f-strings. -/
def sq : String :=
  String.singleton (Char.ofNat 39)

/-- The message printed on a parse failure:
`f"Error: Could not process '{xml_file_path}': {e}"`. -/
def parseErrorMsg (xmlFilePath cause : String) : String :=
  "Error: Could not process " ++ sq ++ xmlFilePath ++ sq ++ ": " ++ cause

/-- Embeds `create_icpc_package`: the directory is created first; a
`FileNotFoundError`/`ParseError` (the `Except.error` case, carrying the
exception text) is reported and the function returns without opening the
output file; otherwise the feed is written. -/
def runConverter (xmlFilePath outputDir : String)
    (parseResult : Except String Document) (clock : Nat → String) : Outcome :=
  match parseResult with
  | Except.error e => ⟨true, [parseErrorMsg xmlFilePath e], none, false⟩
  | Except.ok doc =>
    match createIcpcEvents doc clock with
    | none => ⟨true, [], none, true⟩
    | some evs =>
      ⟨true,
        ["Writing complete contest definition to event feed...",
         "Writing submissions and judgements...",
         "Writing final contest state...",
         "\nSuccessfully created compliant ICPC Contest Package in " ++ sq ++ outputDir ++ sq ++ "."],
        some evs, false⟩

/- ### Spec-modelled definitions -/

/-- Modelled from the spec: the source contains no parser for its
`H:MM:SS.mmm` duration strings; the round-trip property of §8 presupposes one.
Following the spec's words, the string is split on `:` into hour, minute and
second fields, the second field is split on `.` with the millisecond part
discarded (the formatter always emits `.000`), and the three decimal fields
are recombined as seconds. -/
def parseHms (s : String) : Option Nat :=
  match splitChar ':' s.data with
  | [hs, ms, rest] =>
    match splitChar '.' rest with
    | [ss, _millis] => do
      let h ← readNat hs
      let m ← readNat ms
      let sec ← readNat ss
      some (h * 3600 + m * 60 + sec)
    | _ => none
  | _ => none

/-- Modelled from the spec (§4.3, §8): the participant stage described
observationally — a participant's organization or group is "newly derived"
exactly when no earlier participant derived the same id; a new derivation
emits the organization event, then the group event, then the team event, and
an already-known one emits only the team event. `pre` is the list of already
processed participants. -/
def segmentsAux (pre : List User) : List User → List EventSpec
  | [] => []
  | u :: rest =>
    let o := deriveOrgName u.name
    let g := deriveGroupName u.name
    (if o ∈ pre.map (fun v => deriveOrgName v.name) then [] else [orgSpec o]) ++
      (if g ∈ pre.map (fun v => deriveGroupName v.name) then [] else [groupSpec g]) ++
      (teamSpec u o g :: segmentsAux (pre ++ [u]) rest)

/- ### Observation predicates on events -/

/-- Is this a `submissions` event? -/
def isSubSpec (s : EventSpec) : Bool :=
  s.type == "submissions"

/-- Is this a `judgements` event? -/
def isJudSpec (s : EventSpec) : Bool :=
  s.type == "judgements"

/-- Is this the `organizations` event with id `o`? -/
def isOrgWith (o : String) (s : EventSpec) : Bool :=
  s.type == "organizations" && strField "id" s.data == o

/-- Every `submissions` entry is immediately followed by its `judgements`
entry (whose `submission_id` is the submission's `id`). -/
def AdjPairsSpec (l : List EventSpec) : Prop :=
  ∀ l1 e l2, l = l1 ++ e :: l2 → e.type = "submissions" →
    ∃ e2 l2', l2 = e2 :: l2' ∧ e2.type = "judgements" ∧
      strField "submission_id" e2.data = strField "id" e.data

/-- Every `submissions` event in the stream is immediately followed by its
`judgements` event. -/
def AdjPairs (evs : List Event) : Prop :=
  ∀ l1 e l2, evs = l1 ++ e :: l2 → e.type = "submissions" →
    ∃ e2 l2', l2 = e2 :: l2' ∧ e2.type = "judgements" ∧
      strField "submission_id" e2.data = strField "id" e.data

/-- Every `teams` entry whose `organization_id` is `o` is preceded by an
`organizations` entry with id `o`. -/
def OrgBeforeSpec (o : String) (l : List EventSpec) : Prop :=
  ∀ l1 e l2, l = l1 ++ e :: l2 → e.type = "teams" →
    strField "organization_id" e.data = o →
    ∃ e2 ∈ l1, e2.type = "organizations" ∧ strField "id" e2.data = o

/-- Every `teams` event referencing organization `o` is preceded by the
`organizations` event with id `o`. -/
def OrgBefore (o : String) (evs : List Event) : Prop :=
  ∀ l1 e l2, evs = l1 ++ e :: l2 → e.type = "teams" →
    strField "organization_id" e.data = o →
    ∃ e2 ∈ l1, e2.type = "organizations" ∧ strField "id" e2.data = o

/- ### Concrete documents used to exercise the pipeline -/

/-- The end-to-end scenario input of spec §8: one contest, one user named
`TeamA: John`, one problem, one run at 120 s with status `OK`. -/
def exampleDoc : Document :=
  { contest_id := "c1"
    start_time := "2024/01/01 10:00:00"
    duration := 18000
    fog_time := 3600
    name := "Example Contest"
    languages := [⟨"cpp", "GNU C++"⟩]
    users := [⟨"u1", "TeamA: John"⟩]
    problems := [⟨"p1", "A", "Problem A"⟩]
    runs := [⟨"r1", 120, "u1", "p1", "cpp", some "OK"⟩] }

/-- The parsed start time of `exampleDoc`. -/
def exStart : DateTime :=
  (parseStartTime "2024/01/01 10:00:00").getD 0

/-- A fixed wall clock. -/
def exClock : Nat → String :=
  fun _ => "2024-06-01T00:00:01"

/-- A second, different wall clock. -/
def exClock2 : Nat → String :=
  fun _ => "2025-06-01T00:00:02"

/-- The event feed produced for `exampleDoc` under `exClock`. -/
def exEvents : List Event :=
  (createIcpcEvents exampleDoc exClock).getD []

/-- The event feed produced for `exampleDoc` under `exClock2`. -/
def exEvents2 : List Event :=
  (createIcpcEvents exampleDoc exClock2).getD []

/- ### Lemmas: decimal digits -/

theorem natDigitsGo_eq (f : Nat) : ∀ (n : Nat) (acc : List Char), n < f →
    natDigitsGo f n acc = natDigits n ++ acc := by
  induction f using Nat.strong_induction_on with
  | _ f ih =>
    intro n acc h
    match f, h with
    | f + 1, h =>
      by_cases h10 : n < 10
      · simp [natDigitsGo, natDigits, h10]
      · have hdiv : n / 10 < n := Nat.div_lt_self (by omega) (by omega)
        simp only [natDigitsGo, if_neg h10]
        rw [ih f (by omega) _ _ (by omega)]
        conv_rhs => rw [natDigits]
        simp only [natDigitsGo, if_neg h10]
        rw [ih n (by omega) _ _ hdiv]
        simp

theorem natDigits_eq (n : Nat) : natDigits n =
    if n < 10 then [Nat.digitChar n] else natDigits (n / 10) ++ [Nat.digitChar (n % 10)] := by
  by_cases h10 : n < 10
  · simp [natDigits, natDigitsGo, h10]
  · have hdiv : n / 10 < n := Nat.div_lt_self (by omega) (by omega)
    rw [if_neg h10]
    conv_lhs => rw [natDigits]
    simp only [natDigitsGo, if_neg h10]
    exact natDigitsGo_eq n (n / 10) _ hdiv

theorem digitChar_isDigit {d : Nat} (h : d < 10) : (Nat.digitChar d).isDigit = true := by
  interval_cases d <;> decide

theorem digitVal_digitChar {d : Nat} (h : d < 10) : digitVal (Nat.digitChar d) = d := by
  interval_cases d <;> decide

theorem natDigits_isDigit (n : Nat) : ∀ c ∈ natDigits n, c.isDigit = true := by
  induction n using Nat.strong_induction_on with
  | _ n ih =>
    rw [natDigits_eq]
    by_cases h10 : n < 10
    · simpa [h10] using digitChar_isDigit h10
    · have hdiv : n / 10 < n := Nat.div_lt_self (by omega) (by omega)
      simp only [if_neg h10]
      intro c hc
      rcases List.mem_append.mp hc with hc | hc
      · exact ih _ hdiv c hc
      · simp only [List.mem_singleton] at hc
        exact hc ▸ digitChar_isDigit (Nat.mod_lt n (by omega))

theorem natDigits_ne_nil (n : Nat) : natDigits n ≠ [] := by
  rw [natDigits_eq]
  by_cases h10 : n < 10 <;> simp [h10]

theorem foldl_natDigits (n : Nat) :
    (natDigits n).foldl (fun a c => 10 * a + digitVal c) 0 = n := by
  induction n using Nat.strong_induction_on with
  | _ n ih =>
    rw [natDigits_eq]
    by_cases h10 : n < 10
    · simp [h10, digitVal_digitChar h10]
    · have hdiv : n / 10 < n := Nat.div_lt_self (by omega) (by omega)
      simp only [if_neg h10, List.foldl_append, ih _ hdiv, List.foldl_cons, List.foldl_nil]
      rw [digitVal_digitChar (Nat.mod_lt n (by omega))]
      omega

theorem readNat_natDigits (n : Nat) : readNat (natDigits n) = some n := by
  have hne : (natDigits n).isEmpty = false := by
    cases h : natDigits n with
    | nil => exact absurd h (natDigits_ne_nil n)
    | cons c cs => rfl
  have hall : (natDigits n).all Char.isDigit = true :=
    List.all_eq_true.mpr (natDigits_isDigit n)
  rw [readNat, hne, if_neg (by simp), hall, if_pos rfl, foldl_natDigits]

theorem pad2Digits_isDigit (n : Nat) : ∀ c ∈ pad2Digits n, c.isDigit = true := by
  rw [pad2Digits]
  by_cases h10 : n < 10
  · simp only [if_pos h10]
    intro c hc
    rcases List.mem_cons.mp hc with hc | hc
    · subst hc; decide
    · exact natDigits_isDigit n c hc
  · simp only [if_neg h10]
    exact natDigits_isDigit n

theorem readNat_pad2Digits (n : Nat) : readNat (pad2Digits n) = some n := by
  rw [pad2Digits]
  by_cases h10 : n < 10
  · have hall : (natDigits n).all Char.isDigit = true :=
      List.all_eq_true.mpr (natDigits_isDigit n)
    have h0 : (10 * 0 + digitVal '0') = 0 := by decide
    rw [if_pos h10, readNat]
    simp only [List.isEmpty_cons, Bool.false_eq_true, if_false, List.all_cons, hall,
      List.foldl_cons, h0]
    rw [if_pos (by decide), foldl_natDigits]
  · simp only [if_neg h10]
    exact readNat_natDigits n

/- ### Lemmas: splitChar -/

theorem splitChar_of_not_mem {sep : Char} {xs : List Char} (h : sep ∉ xs) :
    splitChar sep xs = [xs] := by
  induction xs with
  | nil => rfl
  | cons c cs ih =>
    have hc : ¬(c = sep) := fun hcc => h (hcc ▸ List.mem_cons_self c cs)
    have hcs : sep ∉ cs := fun hm => h (List.mem_cons_of_mem c hm)
    simp [splitChar, hc, ih hcs]

theorem splitChar_append {sep : Char} {xs : List Char} (ys : List Char) (h : sep ∉ xs) :
    splitChar sep (xs ++ sep :: ys) = xs :: splitChar sep ys := by
  induction xs with
  | nil => simp [splitChar]
  | cons c cs ih =>
    have hc : ¬(c = sep) := fun hcc => h (hcc ▸ List.mem_cons_self c cs)
    have hcs : sep ∉ cs := fun hm => h (List.mem_cons_of_mem c hm)
    simp [splitChar, hc, ih hcs]

theorem isDigit_ne_colon {c : Char} (h : c.isDigit = true) : ¬(c = ':') := by
  intro hc; subst hc; simp at h

theorem isDigit_ne_dot {c : Char} (h : c.isDigit = true) : ¬(c = '.') := by
  intro hc; subst hc; simp at h

/- ### Lemmas: the shape of formatted durations -/

theorem strData_append (a b : String) : (a ++ b).data = a.data ++ b.data := by
  cases a; cases b; rfl

theorem strData_mk (l : List Char) : (String.mk l).data = l := rfl

theorem format_hms_sss_data (s : Nat) : (format_hms_sss s).data =
    natDigits (s / 3600) ++ ':' ::
      (pad2Digits (s % 3600 / 60) ++ ':' ::
        (pad2Digits (s % 3600 % 60) ++ '.' :: ['0', '0', '0'])) := by
  rw [format_hms_sss]
  simp only [strData_append, natStr, pad2, strData_mk]
  simp [List.append_assoc]

/- ### Lemmas: tokens and stream splitting -/

theorem strip_mkEvent (now : String) (s : EventSpec) : (mkEvent now s).strip = s := by
  cases s with
  | mk t o d => cases o <;> rfl

theorem map_strip_attachTokens (clock : Nat → String) :
    ∀ (k : Nat) (l : List EventSpec), (attachTokens clock k l).map Event.strip = l := by
  intro k l
  induction l generalizing k with
  | nil => rfl
  | cons s rest ih => simp [attachTokens, strip_mkEvent, ih]

theorem attachTokens_split (clock : Nat → String) :
    ∀ (specs : List EventSpec) (k : Nat) {l1 l2 : List Event} {e : Event},
    attachTokens clock k specs = l1 ++ e :: l2 →
    ∃ s1 s2, specs = s1 ++ e.strip :: s2 ∧ l1 = attachTokens clock k s1 ∧
      l2 = attachTokens clock (k + s1.length + 1) s2 := by
  intro specs
  induction specs with
  | nil => intro k l1 l2 e h; simp [attachTokens] at h
  | cons s rest ih =>
    intro k l1 l2 e h
    rw [attachTokens] at h
    cases l1 with
    | nil =>
      simp only [List.nil_append] at h
      obtain ⟨he, hl2⟩ := List.cons.injEq .. ▸ h
      refine ⟨[], rest, ?_, rfl, ?_⟩
      · rw [← he, strip_mkEvent]
        rfl
      · simpa using hl2.symm
    | cons x l1' =>
      simp only [List.cons_append] at h
      obtain ⟨hx, hrest⟩ := List.cons.injEq .. ▸ h
      obtain ⟨s1, s2, hspecs, hl1, hl2⟩ := ih (k + 1) hrest
      refine ⟨s :: s1, s2, by simp [hspecs], ?_, ?_⟩
      · rw [attachTokens, ← hl1, hx]
      · rw [hl2]
        congr 1
        simp
        omega

theorem append_eq_split {α : Type} : ∀ (A : List α) {B l1 l2 : List α} {e : α},
    A ++ B = l1 ++ e :: l2 →
    (∃ q, A = l1 ++ e :: q ∧ l2 = q ++ B) ∨ (∃ p, l1 = A ++ p ∧ B = p ++ e :: l2) := by
  intro A
  induction A with
  | nil =>
    intro B l1 l2 e h
    right
    exact ⟨l1, rfl, h⟩
  | cons a A ih =>
    intro B l1 l2 e h
    cases l1 with
    | nil =>
      simp only [List.cons_append, List.nil_append] at h
      obtain ⟨he, hl2⟩ := List.cons.injEq .. ▸ h
      left
      exact ⟨A, by simp [he], hl2.symm⟩
    | cons b l1' =>
      simp only [List.cons_append] at h
      obtain ⟨hab, h'⟩ := List.cons.injEq .. ▸ h
      rcases ih h' with ⟨q, hA, hl2⟩ | ⟨p, hl1, hB⟩
      · left
        exact ⟨q, by simp [hab, hA], hl2⟩
      · right
        exact ⟨p, by simp [hab, hl1], hB⟩

/- ### Lemmas: the duration round trip -/

theorem parseHms_format (s : Nat) : parseHms (format_hms_sss s) = some s := by
  have hcol1 : ':' ∉ natDigits (s / 3600) :=
    fun hm => isDigit_ne_colon (natDigits_isDigit _ _ hm) rfl
  have hcol2 : ':' ∉ pad2Digits (s % 3600 / 60) :=
    fun hm => isDigit_ne_colon (pad2Digits_isDigit _ _ hm) rfl
  have hcol3 : ':' ∉ pad2Digits (s % 3600 % 60) ++ '.' :: ['0', '0', '0'] := by
    intro hm
    rcases List.mem_append.mp hm with hm | hm
    · exact isDigit_ne_colon (pad2Digits_isDigit _ _ hm) rfl
    · revert hm
      decide
  have hdot : '.' ∉ pad2Digits (s % 3600 % 60) :=
    fun hm => isDigit_ne_dot (pad2Digits_isDigit _ _ hm) rfl
  rw [parseHms, format_hms_sss_data]
  rw [splitChar_append _ hcol1, splitChar_append _ hcol2, splitChar_of_not_mem hcol3]
  dsimp only
  rw [splitChar_append _ hdot, splitChar_of_not_mem (by decide : '.' ∉ ['0', '0', '0'])]
  dsimp only
  rw [readNat_natDigits, readNat_pad2Digits, readNat_pad2Digits]
  simp only [Option.bind_eq_bind, Option.some_bind, Option.some.injEq]
  omega

/- ### Lemmas: types of events in each stage -/

theorem preSpecs_type {doc : Document} {st : DateTime} {s : EventSpec}
    (h : s ∈ preSpecs doc st) :
    s.type = "contests" ∨ s.type = "judgement-types" ∨ s.type = "languages" := by
  rcases List.mem_cons.mp h with h | h
  · left; rw [h]; rfl
  · rcases List.mem_append.mp h with h | h
    · obtain ⟨jt, _, hjt⟩ := List.mem_map.mp h
      right; left; rw [← hjt]
    · obtain ⟨l, _, hl⟩ := List.mem_map.mp h
      right; right; rw [← hl]; rfl

theorem mem_ite_nil_single {α : Type} {c : Prop} [Decidable c] {x s : α}
    (h : s ∈ (if c then ([] : List α) else [x])) : s = x := by
  by_cases hc : c
  · rw [if_pos hc] at h
    simp at h
  · rw [if_neg hc] at h
    simpa using h

theorem processUsers_type :
    ∀ (us : List User) (orgs groups : List String) (s : EventSpec),
      s ∈ processUsers orgs groups us →
      s.type = "organizations" ∨ s.type = "groups" ∨ s.type = "teams" := by
  intro us
  induction us with
  | nil => intro orgs groups s h; simp [processUsers] at h
  | cons u rest ih =>
    intro orgs groups s h
    rw [processUsers] at h
    rcases List.mem_append.mp h with h | h
    · rcases List.mem_append.mp h with h | h
      · left
        rw [mem_ite_nil_single h]
        rfl
      · right; left
        rw [mem_ite_nil_single h]
        rfl
    · rcases List.mem_cons.mp h with h | h
      · right; right
        rw [h]
        rfl
      · exact ih _ _ _ h

theorem postSpecs_type {doc : Document} {st : DateTime} {s : EventSpec}
    (h : s ∈ postSpecs doc st) :
    s.type = "problems" ∨ s.type = "submissions" ∨ s.type = "judgements" ∨
      s.type = "state" := by
  rcases List.mem_append.mp h with h | h
  · rcases List.mem_append.mp h with h | h
    · obtain ⟨p, _, hp⟩ := List.mem_map.mp h
      left
      rw [← hp]
      rfl
    · obtain ⟨r, _, hr⟩ := List.mem_flatMap.mp h
      rcases List.mem_cons.mp hr with hr | hr
      · right; left
        rw [hr]
        rfl
      · right; right; left
        simp only [List.mem_singleton] at hr
        rw [hr]
        rfl
  · simp only [List.mem_singleton] at h
    right; right; right
    rw [h]
    rfl

theorem eventSpecs_eq {doc : Document} {st : DateTime}
    (h : parseStartTime doc.start_time = some st) :
    eventSpecs doc =
      some (preSpecs doc st ++ processUsers [] [] doc.users ++ postSpecs doc st) := by
  rw [eventSpecs, h]
  rfl

/- ### Lemmas: submission/judgement counting and pairing -/

theorem filter_isSub_runSpecs (st : DateTime) (runs : List Run) :
    (runSpecs st runs).filter isSubSpec = runs.map (submissionSpec st) := by
  induction runs with
  | nil => rfl
  | cons r rest ih =>
    rw [runSpecs] at ih ⊢
    simp only [List.flatMap_cons, List.cons_append, List.nil_append, List.filter_cons]
    rw [show isSubSpec (submissionSpec st r) = true from rfl,
      show isSubSpec (judgementSpec st r) = false from rfl]
    simp only [List.filter_append] at ih ⊢
    simp [ih]

theorem filter_isJud_runSpecs (st : DateTime) (runs : List Run) :
    (runSpecs st runs).filter isJudSpec = runs.map (judgementSpec st) := by
  induction runs with
  | nil => rfl
  | cons r rest ih =>
    rw [runSpecs] at ih ⊢
    simp only [List.flatMap_cons, List.cons_append, List.nil_append, List.filter_cons]
    rw [show isJudSpec (submissionSpec st r) = false from rfl,
      show isJudSpec (judgementSpec st r) = true from rfl]
    simp only [List.filter_append] at ih ⊢
    simp [ih]

/- ### Lemmas: adjacency of submission/judgement pairs -/

theorem adjSpec_nil : AdjPairsSpec [] := by
  intro l1 e l2 h
  simp at h

theorem adjSpec_cons {x : EventSpec} {l : List EventSpec}
    (hx : ¬(x.type = "submissions")) (h : AdjPairsSpec l) : AdjPairsSpec (x :: l) := by
  intro l1 e l2 hs he
  cases l1 with
  | nil =>
    simp only [List.nil_append, List.cons.injEq] at hs
    exact absurd (hs.1 ▸ he) hx
  | cons y l1' =>
    simp only [List.cons_append, List.cons.injEq] at hs
    exact h l1' e l2 hs.2 he

theorem adjSpec_pair {a b : EventSpec} {l : List EventSpec} (hb : b.type = "judgements")
    (hab : strField "submission_id" b.data = strField "id" a.data)
    (h : AdjPairsSpec (b :: l)) : AdjPairsSpec (a :: b :: l) := by
  intro l1 e l2 hs he
  cases l1 with
  | nil =>
    simp only [List.nil_append, List.cons.injEq] at hs
    exact ⟨b, l, hs.2.symm, hb, by rw [← hs.1]; exact hab⟩
  | cons y l1' =>
    simp only [List.cons_append, List.cons.injEq] at hs
    exact h l1' e l2 hs.2 he

theorem adjSpec_append {A B : List EventSpec} (hA : ∀ s ∈ A, ¬(s.type = "submissions"))
    (h : AdjPairsSpec B) : AdjPairsSpec (A ++ B) := by
  induction A with
  | nil => simpa using h
  | cons a A' ih =>
    rw [List.cons_append]
    exact adjSpec_cons (hA a (List.mem_cons_self a A'))
      (ih fun s hs => hA s (List.mem_cons_of_mem a hs))

theorem adjSpec_runSpecs (st : DateTime) {tail : List EventSpec} (h : AdjPairsSpec tail) :
    ∀ runs : List Run, AdjPairsSpec (runSpecs st runs ++ tail) := by
  intro runs
  induction runs with
  | nil => simpa [runSpecs] using h
  | cons r rest ih =>
    rw [runSpecs] at ih ⊢
    simp only [List.flatMap_cons, List.cons_append, List.nil_append, List.append_assoc] at ih ⊢
    exact adjSpec_pair rfl rfl (adjSpec_cons (by simp [judgementSpec]) ih)

theorem mkEvent_type (now : String) (s : EventSpec) : (mkEvent now s).type = s.type := by
  cases s with
  | mk t o d => cases o <;> rfl

theorem mkEvent_data (now : String) (s : EventSpec) : (mkEvent now s).data = s.data := by
  cases s with
  | mk t o d => cases o <;> rfl

theorem adjPairs_attach {clock : Nat → String} {k : Nat} {specs : List EventSpec}
    (h : AdjPairsSpec specs) : AdjPairs (attachTokens clock k specs) := by
  intro l1 e l2 hs he
  obtain ⟨s1, s2, hspecs, _, hl2⟩ := attachTokens_split clock specs k hs
  obtain ⟨e2s, l2s, hs2, he2, hfield⟩ := h s1 e.strip s2 hspecs he
  refine ⟨mkEvent (clock (k + s1.length + 1)) e2s,
    attachTokens clock (k + s1.length + 1 + 1) l2s, ?_, ?_, ?_⟩
  · rw [hl2, hs2, attachTokens]
  · rw [mkEvent_type]
    exact he2
  · rw [mkEvent_data]
    exact hfield

/- ### Lemmas: organization events precede the teams that reference them -/

theorem orgBeforeSpec_cons {o : String} {x : EventSpec} {l : List EventSpec}
    (hx : ¬(x.type = "teams" ∧ strField "organization_id" x.data = o))
    (h : OrgBeforeSpec o l) : OrgBeforeSpec o (x :: l) := by
  intro l1 e l2 hs ht href
  cases l1 with
  | nil =>
    simp only [List.nil_append, List.cons.injEq] at hs
    exact absurd ⟨hs.1 ▸ ht, hs.1 ▸ href⟩ hx
  | cons y l1' =>
    simp only [List.cons_append, List.cons.injEq] at hs
    obtain ⟨e2, he2mem, he2⟩ := h l1' e l2 hs.2 ht href
    exact ⟨e2, List.mem_cons_of_mem y he2mem, he2⟩

theorem orgBeforeSpec_found {o : String} {x : EventSpec} {l : List EventSpec}
    (hx : x.type = "organizations") (hid : strField "id" x.data = o) :
    OrgBeforeSpec o (x :: l) := by
  intro l1 e l2 hs ht href
  cases l1 with
  | nil =>
    simp only [List.nil_append, List.cons.injEq] at hs
    rw [← hs.1, hx] at ht
    exact absurd ht (by decide)
  | cons y l1' =>
    simp only [List.cons_append, List.cons.injEq] at hs
    exact ⟨x, hs.1 ▸ List.mem_cons_self x l1', hx, hid⟩

theorem orgBefore_attach {o : String} {clock : Nat → String} {k : Nat}
    {specs : List EventSpec} (h : OrgBeforeSpec o specs) :
    OrgBefore o (attachTokens clock k specs) := by
  intro l1 e l2 hs ht href
  obtain ⟨s1, s2, hspecs, hl1, _⟩ := attachTokens_split clock specs k hs
  obtain ⟨e2s, he2mem, he2ty, he2id⟩ := h s1 e.strip s2 hspecs ht href
  have hmem : e2s ∈ (attachTokens clock k s1).map Event.strip := by
    rw [map_strip_attachTokens]
    exact he2mem
  obtain ⟨e2, he2mem', he2strip⟩ := List.mem_map.mp hmem
  refine ⟨e2, hl1 ▸ he2mem', ?_, ?_⟩
  · show e2.strip.type = "organizations"
    rw [he2strip]
    exact he2ty
  · show strField "id" e2.strip.data = o
    rw [he2strip]
    exact he2id

theorem processUsers_orgBefore (o : String) :
    ∀ (us : List User) (orgs groups : List String), o ∉ orgs →
      OrgBeforeSpec o (processUsers orgs groups us) := by
  intro us
  induction us with
  | nil =>
    intro orgs groups _ l1 e l2 hs _ _
    simp [processUsers] at hs
  | cons u rest ih =>
    intro orgs groups ho
    rw [processUsers]
    by_cases hcase : deriveOrgName u.name = o
    · have h1 : deriveOrgName u.name ∉ orgs := by rw [hcase]; exact ho
      simp only [if_neg h1, List.cons_append, List.nil_append]
      exact orgBeforeSpec_found rfl hcase
    · have hteam : ¬((teamSpec u (deriveOrgName u.name) (deriveGroupName u.name)).type = "teams" ∧
          strField "organization_id"
            (teamSpec u (deriveOrgName u.name) (deriveGroupName u.name)).data = o) := by
        rintro ⟨-, href⟩
        exact hcase href
      have horg : ∀ z : String,
          ¬((orgSpec z).type = "teams" ∧ strField "organization_id" (orgSpec z).data = o) := by
        rintro z ⟨ht, -⟩
        simp [orgSpec] at ht
      have hgrp : ∀ z : String,
          ¬((groupSpec z).type = "teams" ∧ strField "organization_id" (groupSpec z).data = o) := by
        rintro z ⟨ht, -⟩
        simp [groupSpec] at ht
      by_cases h1 : deriveOrgName u.name ∈ orgs
      · by_cases h2 : deriveGroupName u.name ∈ groups
        · simp only [if_pos h1, if_pos h2, List.nil_append]
          exact orgBeforeSpec_cons hteam (ih _ _ ho)
        · simp only [if_pos h1, if_neg h2, List.nil_append, List.cons_append]
          exact orgBeforeSpec_cons (hgrp _) (orgBeforeSpec_cons hteam (ih _ _ ho))
      · have ho2 : o ∉ orgs ++ [deriveOrgName u.name] := by
          intro hmem
          rcases List.mem_append.mp hmem with hmem | hmem
          · exact ho hmem
          · simp only [List.mem_singleton] at hmem
            exact hcase hmem.symm
        by_cases h2 : deriveGroupName u.name ∈ groups
        · simp only [if_neg h1, if_pos h2, List.append_nil, List.cons_append, List.nil_append]
          exact orgBeforeSpec_cons (horg _) (orgBeforeSpec_cons hteam (ih _ _ ho2))
        · simp only [if_neg h1, if_neg h2, List.cons_append, List.nil_append]
          exact orgBeforeSpec_cons (horg _)
            (orgBeforeSpec_cons (hgrp _) (orgBeforeSpec_cons hteam (ih _ _ ho2)))

theorem processUsers_countOrg (o : String) :
    ∀ (us : List User) (orgs groups : List String),
      (processUsers orgs groups us).countP (isOrgWith o) =
        if o ∈ orgs then 0
        else if o ∈ us.map (fun u => deriveOrgName u.name) then 1 else 0 := by
  intro us
  induction us with
  | nil =>
    intro orgs groups
    simp only [processUsers, List.countP_nil, List.map_nil, List.not_mem_nil, if_false]
    rw [ite_self]
  | cons u rest ih =>
    intro orgs groups
    rw [processUsers]
    have horgspec : ∀ z : String, isOrgWith o (orgSpec z) = (z == o) := fun z => rfl
    have hgrpspec : ∀ z : String, isOrgWith o (groupSpec z) = false := fun z => rfl
    have hteamspec :
        isOrgWith o (teamSpec u (deriveOrgName u.name) (deriveGroupName u.name)) = false := rfl
    by_cases h1 : deriveOrgName u.name ∈ orgs
    · have hz : deriveOrgName u.name = o → o ∈ orgs := fun hz => hz ▸ h1
      by_cases h2 : deriveGroupName u.name ∈ groups
      · simp only [if_pos h1, if_pos h2, List.nil_append, List.countP_cons, hteamspec,
          if_false, ih, List.map_cons, List.mem_cons]
        by_cases hm : o ∈ orgs
        · simp [hm]
        · simp only [if_neg hm]
          have : ¬(o = deriveOrgName u.name) := fun h => hm (hz h.symm)
          simp [this]
      · simp only [if_pos h1, if_neg h2, List.nil_append, List.cons_append, List.countP_cons,
          hteamspec, hgrpspec, if_false, ih, List.map_cons, List.mem_cons]
        by_cases hm : o ∈ orgs
        · simp [hm]
        · simp only [if_neg hm]
          have : ¬(o = deriveOrgName u.name) := fun h => hm (hz h.symm)
          simp [this]
    · have horgs2 : ∀ x : String, x ∈ orgs ++ [deriveOrgName u.name] ↔
          (x ∈ orgs ∨ x = deriveOrgName u.name) := by
        intro x
        simp [List.mem_append]
      by_cases h2 : deriveGroupName u.name ∈ groups
      · simp only [if_neg h1, if_pos h2, List.append_nil, List.cons_append, List.nil_append,
          List.countP_cons, List.countP_append, hteamspec, horgspec, if_false, ih,
          List.map_cons, List.mem_cons, List.countP_nil]
        by_cases hm : o ∈ orgs
        · have : o ∈ orgs ++ [deriveOrgName u.name] := List.mem_append.mpr (Or.inl hm)
          have hne : ¬(deriveOrgName u.name = o) := fun h => h1 (h ▸ hm)
          simp [hm, this, hne]
        · by_cases hz : deriveOrgName u.name = o
          · have : o ∈ orgs ++ [deriveOrgName u.name] :=
              List.mem_append.mpr (Or.inr (by simp [hz]))
            simp [hm, this, hz]
          · have : ¬(o ∈ orgs ++ [deriveOrgName u.name]) := by
              rw [horgs2]
              rintro (h | h)
              · exact hm h
              · exact hz h.symm
            have hne : ¬(o = deriveOrgName u.name) := fun h => hz h.symm
            simp [hm, this, hz, hne]
      · simp only [if_neg h1, if_neg h2, List.cons_append, List.nil_append,
          List.countP_cons, List.countP_append, hteamspec, horgspec, hgrpspec, if_false, ih,
          List.map_cons, List.mem_cons, List.countP_nil]
        by_cases hm : o ∈ orgs
        · have : o ∈ orgs ++ [deriveOrgName u.name] := List.mem_append.mpr (Or.inl hm)
          have hne : ¬(deriveOrgName u.name = o) := fun h => h1 (h ▸ hm)
          simp [hm, this, hne]
        · by_cases hz : deriveOrgName u.name = o
          · have : o ∈ orgs ++ [deriveOrgName u.name] :=
              List.mem_append.mpr (Or.inr (by simp [hz]))
            simp [hm, this, hz]
          · have : ¬(o ∈ orgs ++ [deriveOrgName u.name]) := by
              rw [horgs2]
              rintro (h | h)
              · exact hm h
              · exact hz h.symm
            have hne : ¬(o = deriveOrgName u.name) := fun h => hz h.symm
            simp [hm, this, hz, hne]

/- ### Lemmas: the participant stage is the per-participant segment view -/

theorem processUsers_eq_segments :
    ∀ (us : List User) (orgs groups : List String) (pre : List User),
      (∀ x, x ∈ orgs ↔ x ∈ pre.map (fun v => deriveOrgName v.name)) →
      (∀ x, x ∈ groups ↔ x ∈ pre.map (fun v => deriveGroupName v.name)) →
      processUsers orgs groups us = segmentsAux pre us := by
  intro us
  induction us with
  | nil => intro orgs groups pre _ _; rfl
  | cons u rest ih =>
    intro orgs groups pre horgs hgroups
    have horgs' : ∀ x, x ∈ orgs ++ [deriveOrgName u.name] ↔
        x ∈ (pre ++ [u]).map (fun v => deriveOrgName v.name) := by
      intro x
      simp only [List.map_append, List.mem_append, List.map_cons, List.map_nil,
        List.mem_singleton, List.mem_cons, List.not_mem_nil, or_false]
      exact or_congr (horgs x) Iff.rfl
    have hgroups' : ∀ x, x ∈ groups ++ [deriveGroupName u.name] ↔
        x ∈ (pre ++ [u]).map (fun v => deriveGroupName v.name) := by
      intro x
      simp only [List.map_append, List.mem_append, List.map_cons, List.map_nil,
        List.mem_singleton, List.mem_cons, List.not_mem_nil, or_false]
      exact or_congr (hgroups x) Iff.rfl
    rw [processUsers, segmentsAux]
    by_cases h1 : deriveOrgName u.name ∈ orgs
    · have h1' : deriveOrgName u.name ∈ pre.map (fun v => deriveOrgName v.name) :=
        (horgs _).mp h1
      have horgsKeep : ∀ x, x ∈ orgs ↔ x ∈ (pre ++ [u]).map (fun v => deriveOrgName v.name) := by
        intro x
        simp only [List.map_append, List.mem_append, List.map_cons, List.map_nil,
          List.mem_singleton, List.mem_cons, List.not_mem_nil, or_false]
        constructor
        · exact fun hx => Or.inl ((horgs x).mp hx)
        · rintro (hx | rfl)
          · exact (horgs x).mpr hx
          · exact h1
      by_cases h2 : deriveGroupName u.name ∈ groups
      · have h2' : deriveGroupName u.name ∈ pre.map (fun v => deriveGroupName v.name) :=
          (hgroups _).mp h2
        have hgroupsKeep : ∀ x, x ∈ groups ↔
            x ∈ (pre ++ [u]).map (fun v => deriveGroupName v.name) := by
          intro x
          simp only [List.map_append, List.mem_append, List.map_cons, List.map_nil,
            List.mem_singleton, List.mem_cons, List.not_mem_nil, or_false]
          constructor
          · exact fun hx => Or.inl ((hgroups x).mp hx)
          · rintro (hx | rfl)
            · exact (hgroups x).mpr hx
            · exact h2
        simp only [if_pos h1, if_pos h2, if_pos h1', if_pos h2']
        rw [ih _ _ _ horgsKeep hgroupsKeep]
      · have h2' : deriveGroupName u.name ∉ pre.map (fun v => deriveGroupName v.name) :=
          fun hm => h2 ((hgroups _).mpr hm)
        simp only [if_pos h1, if_neg h2, if_pos h1', if_neg h2']
        rw [ih _ _ _ horgsKeep hgroups']
    · have h1' : deriveOrgName u.name ∉ pre.map (fun v => deriveOrgName v.name) :=
        fun hm => h1 ((horgs _).mpr hm)
      by_cases h2 : deriveGroupName u.name ∈ groups
      · have h2' : deriveGroupName u.name ∈ pre.map (fun v => deriveGroupName v.name) :=
          (hgroups _).mp h2
        have hgroupsKeep : ∀ x, x ∈ groups ↔
            x ∈ (pre ++ [u]).map (fun v => deriveGroupName v.name) := by
          intro x
          simp only [List.map_append, List.mem_append, List.map_cons, List.map_nil,
            List.mem_singleton, List.mem_cons, List.not_mem_nil, or_false]
          constructor
          · exact fun hx => Or.inl ((hgroups x).mp hx)
          · rintro (hx | rfl)
            · exact (hgroups x).mpr hx
            · exact h2
        simp only [if_neg h1, if_pos h2, if_neg h1', if_pos h2']
        rw [ih _ _ _ horgs' hgroupsKeep]
      · have h2' : deriveGroupName u.name ∉ pre.map (fun v => deriveGroupName v.name) :=
          fun hm => h2 ((hgroups _).mpr hm)
        simp only [if_neg h1, if_neg h2, if_neg h1', if_neg h2']
        rw [ih _ _ _ horgs' hgroups']

/- ### Lemmas: relating the token-carrying stream to its contents -/

theorem createIcpcEvents_inv {doc : Document} {clock : Nat → String} {evs : List Event}
    (h : createIcpcEvents doc clock = some evs) :
    ∃ st, parseStartTime doc.start_time = some st ∧
      evs = attachTokens clock 0
        (preSpecs doc st ++ processUsers [] [] doc.users ++ postSpecs doc st) := by
  cases heq : parseStartTime doc.start_time with
  | none =>
    rw [createIcpcEvents, eventSpecs, heq] at h
    simp at h
  | some st =>
    rw [createIcpcEvents, eventSpecs_eq heq] at h
    simp only [Option.map_some', Option.some.injEq] at h
    exact ⟨st, rfl, h.symm⟩

theorem countP_attach (clock : Nat → String) (k : Nat) (specs : List EventSpec)
    (p : EventSpec → Bool) :
    (attachTokens clock k specs).countP (fun e => p e.strip) = specs.countP p := by
  conv_rhs => rw [← map_strip_attachTokens clock k specs]
  rw [List.countP_map]
  rfl

theorem filterMap_attach {α : Type} (clock : Nat → String) (k : Nat)
    (specs : List EventSpec) (p : EventSpec → Bool) (g : EventSpec → α) :
    ((attachTokens clock k specs).filter (fun e => p e.strip)).map (fun e => g e.strip) =
      (specs.filter p).map g := by
  conv_rhs => rw [← map_strip_attachTokens clock k specs]
  rw [List.filter_map, List.map_map]
  rfl

/- ### Lemmas: counting submissions and judgements in the full stream -/

theorem preSpecs_countP_isSub (doc : Document) (st : DateTime) :
    (preSpecs doc st).countP isSubSpec = 0 :=
  List.countP_eq_zero.mpr fun s hs => by
    rcases preSpecs_type hs with h | h | h <;> simp [isSubSpec, h]

theorem preSpecs_countP_isJud (doc : Document) (st : DateTime) :
    (preSpecs doc st).countP isJudSpec = 0 :=
  List.countP_eq_zero.mpr fun s hs => by
    rcases preSpecs_type hs with h | h | h <;> simp [isJudSpec, h]

theorem processUsers_countP_isSub (doc : Document) :
    (processUsers [] [] doc.users).countP isSubSpec = 0 :=
  List.countP_eq_zero.mpr fun s hs => by
    rcases processUsers_type _ _ _ _ hs with h | h | h <;> simp [isSubSpec, h]

theorem processUsers_countP_isJud (doc : Document) :
    (processUsers [] [] doc.users).countP isJudSpec = 0 :=
  List.countP_eq_zero.mpr fun s hs => by
    rcases processUsers_type _ _ _ _ hs with h | h | h <;> simp [isJudSpec, h]

theorem runSpecs_countP_isSub (st : DateTime) (runs : List Run) :
    (runSpecs st runs).countP isSubSpec = runs.length := by
  rw [List.countP_eq_length_filter, filter_isSub_runSpecs, List.length_map]

theorem runSpecs_countP_isJud (st : DateTime) (runs : List Run) :
    (runSpecs st runs).countP isJudSpec = runs.length := by
  rw [List.countP_eq_length_filter, filter_isJud_runSpecs, List.length_map]

theorem postSpecs_countP_isSub (doc : Document) (st : DateTime) :
    (postSpecs doc st).countP isSubSpec = doc.runs.length := by
  rw [postSpecs, List.countP_append, List.countP_append, runSpecs_countP_isSub]
  have h1 : (doc.problems.map problemSpec).countP isSubSpec = 0 :=
    List.countP_eq_zero.mpr fun s hs => by
      obtain ⟨p, _, hp⟩ := List.mem_map.mp hs
      simp [isSubSpec, ← hp, problemSpec]
  have h2 : ([stateSpec doc st] : List EventSpec).countP isSubSpec = 0 :=
    List.countP_eq_zero.mpr fun s hs => by
      simp only [List.mem_singleton] at hs
      simp [isSubSpec, hs, stateSpec]
  omega

theorem postSpecs_countP_isJud (doc : Document) (st : DateTime) :
    (postSpecs doc st).countP isJudSpec = doc.runs.length := by
  rw [postSpecs, List.countP_append, List.countP_append, runSpecs_countP_isJud]
  have h1 : (doc.problems.map problemSpec).countP isJudSpec = 0 :=
    List.countP_eq_zero.mpr fun s hs => by
      obtain ⟨p, _, hp⟩ := List.mem_map.mp hs
      simp [isJudSpec, ← hp, problemSpec]
  have h2 : ([stateSpec doc st] : List EventSpec).countP isJudSpec = 0 :=
    List.countP_eq_zero.mpr fun s hs => by
      simp only [List.mem_singleton] at hs
      simp [isJudSpec, hs, stateSpec]
  omega

/- ### Claim C2 -/

/-- C2: for every valid input document, the number of `submissions` events in
the output equals the number of `judgements` events, both equal the number of
run records; the `submissions` events carry the runs' ids in source order; and
each `submissions` event is immediately followed by its paired `judgements`
event (whose `submission_id` equals the submission's `id`). -/
theorem claim_C2 (doc : Document) (clock : Nat → String) (evs : List Event)
    (h : createIcpcEvents doc clock = some evs) :
    evs.countP (fun e => isSubSpec e.strip) = doc.runs.length ∧
    evs.countP (fun e => isJudSpec e.strip) = doc.runs.length ∧
    (evs.filter (fun e => isSubSpec e.strip)).map (fun e => strField "id" e.data) =
      doc.runs.map Run.run_id ∧
    AdjPairs evs := by
  obtain ⟨st, hst, hevs⟩ := createIcpcEvents_inv h
  subst hevs
  refine ⟨?_, ?_, ?_, ?_⟩
  · rw [countP_attach, List.countP_append, List.countP_append,
      preSpecs_countP_isSub, processUsers_countP_isSub, postSpecs_countP_isSub]
    omega
  · rw [countP_attach, List.countP_append, List.countP_append,
      preSpecs_countP_isJud, processUsers_countP_isJud, postSpecs_countP_isJud]
    omega
  · have := filterMap_attach clock 0
      (preSpecs doc st ++ processUsers [] [] doc.users ++ postSpecs doc st)
      isSubSpec (fun s => strField "id" s.data)
    rw [show (fun (e : Event) => strField "id" e.data) =
        (fun (e : Event) => strField "id" e.strip.data) from rfl]
    rw [this]
    rw [List.filter_append, List.filter_append]
    have h1 : (preSpecs doc st).filter isSubSpec = [] :=
      List.filter_eq_nil_iff.mpr fun s hs => by
        rcases preSpecs_type hs with h | h | h <;> simp [isSubSpec, h]
    have h2 : (processUsers [] [] doc.users).filter isSubSpec = [] :=
      List.filter_eq_nil_iff.mpr fun s hs => by
        rcases processUsers_type _ _ _ _ hs with h | h | h <;> simp [isSubSpec, h]
    have h3 : (doc.problems.map problemSpec).filter isSubSpec = [] :=
      List.filter_eq_nil_iff.mpr fun s hs => by
        obtain ⟨p, _, hp⟩ := List.mem_map.mp hs
        simp [isSubSpec, ← hp, problemSpec]
    have h4 : ([stateSpec doc st] : List EventSpec).filter isSubSpec = [] :=
      List.filter_eq_nil_iff.mpr fun s hs => by
        simp only [List.mem_singleton] at hs
        simp [isSubSpec, hs, stateSpec]
    rw [h1, h2, postSpecs, List.filter_append, List.filter_append, h3, h4,
      filter_isSub_runSpecs]
    simp only [List.nil_append, List.append_nil, List.map_map]
    rfl
  · apply adjPairs_attach
    apply adjSpec_append
    · intro s hs
      rcases List.mem_append.mp hs with hs | hs
      · rcases preSpecs_type hs with h | h | h <;> simp [h]
      · rcases processUsers_type _ _ _ _ hs with h | h | h <;> simp [h]
    · rw [postSpecs, List.append_assoc]
      apply adjSpec_append
      · intro s hs
        obtain ⟨p, _, hp⟩ := List.mem_map.mp hs
        simp [← hp, problemSpec]
      · exact adjSpec_runSpecs st
          (adjSpec_cons (by simp [stateSpec]) adjSpec_nil) doc.runs

/- ### Claim C3 -/

theorem orgBeforeSpec_append_front {o : String} {A B : List EventSpec}
    (hA : ∀ s ∈ A, ¬(s.type = "teams" ∧ strField "organization_id" s.data = o))
    (hB : OrgBeforeSpec o B) : OrgBeforeSpec o (A ++ B) := by
  induction A with
  | nil => simpa using hB
  | cons a A' ih =>
    rw [List.cons_append]
    exact orgBeforeSpec_cons (hA a (List.mem_cons_self a A'))
      (ih fun s hs => hA s (List.mem_cons_of_mem a hs))

theorem orgBeforeSpec_append_back {o : String} {A B : List EventSpec}
    (hA : OrgBeforeSpec o A)
    (hB : ∀ s ∈ B, ¬(s.type = "teams" ∧ strField "organization_id" s.data = o)) :
    OrgBeforeSpec o (A ++ B) := by
  intro l1 e l2 hs ht href
  rcases append_eq_split A hs with ⟨q, hAeq, _⟩ | ⟨p, hl1, hBeq⟩
  · obtain ⟨e2, he2mem, he2⟩ := hA l1 e q hAeq ht href
    exact ⟨e2, he2mem, he2⟩
  · have : e ∈ B := by
      rw [hBeq]
      exact List.mem_append.mpr (Or.inr (List.mem_cons_self e l2))
    exact absurd ⟨ht, href⟩ (hB e this)

/-- C3: for every valid input document and every organization id derived from
at least one participant name, exactly one `organizations` event with that id
is emitted, and it appears in the output stream before any `teams` event whose
`organization_id` references it. -/
theorem claim_C3 (doc : Document) (clock : Nat → String) (evs : List Event)
    (h : createIcpcEvents doc clock = some evs) (o : String)
    (husr : ∃ u ∈ doc.users, deriveOrgName u.name = o) :
    evs.countP (fun e => isOrgWith o e.strip) = 1 ∧ OrgBefore o evs := by
  obtain ⟨st, hst, hevs⟩ := createIcpcEvents_inv h
  subst hevs
  constructor
  · rw [countP_attach, List.countP_append, List.countP_append]
    have h1 : (preSpecs doc st).countP (isOrgWith o) = 0 :=
      List.countP_eq_zero.mpr fun s hs => by
        rcases preSpecs_type hs with h | h | h <;> simp [isOrgWith, h]
    have h3 : (postSpecs doc st).countP (isOrgWith o) = 0 :=
      List.countP_eq_zero.mpr fun s hs => by
        rcases postSpecs_type hs with h | h | h | h <;> simp [isOrgWith, h]
    have h2 : (processUsers [] [] doc.users).countP (isOrgWith o) = 1 := by
      rw [processUsers_countOrg]
      rw [if_neg (List.not_mem_nil o)]
      rw [if_pos]
      obtain ⟨u, hu, ho⟩ := husr
      exact List.mem_map.mpr ⟨u, hu, ho⟩
    omega
  · apply orgBefore_attach
    apply orgBeforeSpec_append_back
    · apply orgBeforeSpec_append_front
      · intro s hs
        rintro ⟨ht, -⟩
        rcases preSpecs_type hs with h | h | h <;> rw [h] at ht <;> simp at ht
      · exact processUsers_orgBefore o doc.users [] [] (List.not_mem_nil o)
    · intro s hs
      rintro ⟨ht, -⟩
      rcases postSpecs_type hs with h | h | h | h <;> rw [h] at ht <;> simp at ht

/- ### Claim C4 -/

/-- C4: for each participant in source order, a newly derived organization id
yields the organization-create event, then (when the group id is also new) the
group-create event, then the team-create event, while an already-known
organization or group contributes no further create event: modulo tokens, the
output stream is exactly the per-participant segment view `segmentsAux`, in
which each participant contributes its organization event iff no earlier
participant derived the same organization id, then its group event iff no
earlier participant derived the same group id, then its team event. -/
theorem claim_C4 (doc : Document) (clock : Nat → String) (evs : List Event)
    (h : createIcpcEvents doc clock = some evs) :
    ∃ st, parseStartTime doc.start_time = some st ∧
      evs.map Event.strip =
        preSpecs doc st ++ segmentsAux [] doc.users ++ postSpecs doc st := by
  obtain ⟨st, hst, hevs⟩ := createIcpcEvents_inv h
  subst hevs
  refine ⟨st, hst, ?_⟩
  rw [map_strip_attachTokens,
    processUsers_eq_segments doc.users [] [] [] (by simp) (by simp)]

/- ### Lemmas: locating events by position -/

theorem mem_of_getElemOpt {α : Type} {l : List α} {n : Nat} {a : α}
    (h : l[n]? = some a) : a ∈ l := by
  induction l generalizing n with
  | nil => simp at h
  | cons x xs ih =>
    cases n with
    | zero =>
      rw [List.getElem?_cons_zero] at h
      simp only [Option.some.injEq] at h
      exact h ▸ List.mem_cons_self x xs
    | succ n =>
      rw [List.getElem?_cons_succ] at h
      exact List.mem_cons_of_mem x (ih h)

theorem exists_event_at {evs : List Event} {L : List EventSpec}
    (hL : evs.map Event.strip = L) (i : Nat) {s : EventSpec}
    (hs : L[i]? = some s) : ∃ e ∈ evs, e.strip = s := by
  rw [← hL, List.getElem?_map] at hs
  cases he : evs[i]? with
  | none =>
    rw [he] at hs
    simp at hs
  | some e =>
    rw [he] at hs
    simp only [Option.map_some', Option.some.injEq] at hs
    exact ⟨e, mem_of_getElemOpt he, hs⟩

theorem exists_last_event {evs : List Event} {L : List EventSpec}
    (hL : evs.map Event.strip = L) {s : EventSpec}
    (hs : L.getLast? = some s) : ∃ e, evs.getLast? = some e ∧ e.strip = s := by
  rw [← hL, List.getLast?_map] at hs
  cases he : evs.getLast? with
  | none =>
    rw [he] at hs
    simp at hs
  | some e =>
    rw [he] at hs
    simp only [Option.map_some', Option.some.injEq] at hs
    exact ⟨e, rfl, hs⟩

theorem length_attachTokens (clock : Nat → String) :
    ∀ (k : Nat) (l : List EventSpec), (attachTokens clock k l).length = l.length := by
  intro k l
  induction l generalizing k with
  | nil => rfl
  | cons s rest ih => simp [attachTokens, ih]

/- ### Claim C1 -/

/-- C1: for the §8 end-to-end input (start 2024/01/01 10:00:00, duration
18000 s, freeze 3600 s, one user `TeamA: John`, one problem, one `OK` run at
120 s), the output stream contains a `contests` event whose `start_time` ends
in `+03:00` with duration `5:00:00.000` and freeze duration `1:00:00.000`, an
`organizations` event with id `TeamA`, a `teams` event referencing `TeamA`, a
`submissions` event at contest time `0:02:00.000`, a `judgements` event of
type `AC`, and a final `state` update whose `ended` and `finalized` both equal
the start time plus 5 hours. -/
theorem claim_C1 (clock : Nat → String) :
    ∃ evs, createIcpcEvents exampleDoc clock = some evs ∧
      (∃ e ∈ evs, e.type = "contests" ∧
        (∃ p, strField "start_time" e.data = p ++ "+03:00") ∧
        strField "duration" e.data = "5:00:00.000" ∧
        strField "scoreboard_freeze_duration" e.data = "1:00:00.000") ∧
      (∃ e ∈ evs, e.type = "organizations" ∧ strField "id" e.data = "TeamA") ∧
      (∃ e ∈ evs, e.type = "teams" ∧ strField "organization_id" e.data = "TeamA") ∧
      (∃ e ∈ evs, e.type = "submissions" ∧ strField "contest_time" e.data = "0:02:00.000") ∧
      (∃ e ∈ evs, e.type = "judgements" ∧ strField "judgement_type_id" e.data = "AC") ∧
      (∃ e, evs.getLast? = some e ∧ e.type = "state" ∧ e.op = Op.update ∧
        strField "ended" e.data = isoformat (exStart + 18000) ∧
        strField "finalized" e.data = isoformat (exStart + 18000) ∧
        strField "ended" e.data = "2024-01-01T15:00:00+03:00") := by
  have hstc : parseStartTime exampleDoc.start_time = some exStart := rfl
  refine ⟨attachTokens clock 0
    (preSpecs exampleDoc exStart ++ processUsers [] [] exampleDoc.users ++
      postSpecs exampleDoc exStart), ?_, ?_, ?_, ?_, ?_, ?_, ?_⟩
  all_goals
    have hL := map_strip_attachTokens clock 0
      (preSpecs exampleDoc exStart ++ processUsers [] [] exampleDoc.users ++
        postSpecs exampleDoc exStart)
  · rw [createIcpcEvents, eventSpecs_eq hstc]
    rfl
  · obtain ⟨e, hmem, hstrip⟩ := exists_event_at hL 0 rfl
    exact ⟨e, hmem, congrArg EventSpec.type hstrip,
      ⟨"2024-01-01T10:00:00", congrArg (fun s => strField "start_time" s.data) hstrip⟩,
      congrArg (fun s => strField "duration" s.data) hstrip,
      congrArg (fun s => strField "scoreboard_freeze_duration" s.data) hstrip⟩
  · obtain ⟨e, hmem, hstrip⟩ := exists_event_at hL 9 rfl
    exact ⟨e, hmem, congrArg EventSpec.type hstrip,
      congrArg (fun s => strField "id" s.data) hstrip⟩
  · obtain ⟨e, hmem, hstrip⟩ := exists_event_at hL 11 rfl
    exact ⟨e, hmem, congrArg EventSpec.type hstrip,
      congrArg (fun s => strField "organization_id" s.data) hstrip⟩
  · obtain ⟨e, hmem, hstrip⟩ := exists_event_at hL 13 rfl
    exact ⟨e, hmem, congrArg EventSpec.type hstrip,
      congrArg (fun s => strField "contest_time" s.data) hstrip⟩
  · obtain ⟨e, hmem, hstrip⟩ := exists_event_at hL 14 rfl
    exact ⟨e, hmem, congrArg EventSpec.type hstrip,
      congrArg (fun s => strField "judgement_type_id" s.data) hstrip⟩
  · obtain ⟨e, hlast, hstrip⟩ := exists_last_event hL rfl
    exact ⟨e, hlast, congrArg EventSpec.type hstrip, congrArg EventSpec.op hstrip,
      congrArg (fun s => strField "ended" s.data) hstrip,
      congrArg (fun s => strField "finalized" s.data) hstrip,
      congrArg (fun s => strField "ended" s.data) hstrip⟩

/-- Closed instance of C1 at a fixed clock. -/
theorem claim_C1_witness :
    ∃ evs, createIcpcEvents exampleDoc exClock = some evs ∧
      (∃ e ∈ evs, e.type = "contests" ∧
        (∃ p, strField "start_time" e.data = p ++ "+03:00") ∧
        strField "duration" e.data = "5:00:00.000" ∧
        strField "scoreboard_freeze_duration" e.data = "1:00:00.000") ∧
      (∃ e ∈ evs, e.type = "organizations" ∧ strField "id" e.data = "TeamA") ∧
      (∃ e ∈ evs, e.type = "teams" ∧ strField "organization_id" e.data = "TeamA") ∧
      (∃ e ∈ evs, e.type = "submissions" ∧ strField "contest_time" e.data = "0:02:00.000") ∧
      (∃ e ∈ evs, e.type = "judgements" ∧ strField "judgement_type_id" e.data = "AC") ∧
      (∃ e, evs.getLast? = some e ∧ e.type = "state" ∧ e.op = Op.update ∧
        strField "ended" e.data = isoformat (exStart + 18000) ∧
        strField "finalized" e.data = isoformat (exStart + 18000) ∧
        strField "ended" e.data = "2024-01-01T15:00:00+03:00") :=
  claim_C1 exClock

/- ### Claims C5 - C7 -/

/-- C5: the verdict translator maps OK, WA, PE, TL, ML, RT to AC, WA, PE,
TLE, MLE, RTE respectively, and every other status code — including an absent
one — maps to CE. -/
theorem claim_C5 :
    translateVerdict (some "OK") = "AC" ∧ translateVerdict (some "WA") = "WA" ∧
    translateVerdict (some "PE") = "PE" ∧ translateVerdict (some "TL") = "TLE" ∧
    translateVerdict (some "ML") = "MLE" ∧ translateVerdict (some "RT") = "RTE" ∧
    translateVerdict none = "CE" ∧
    ∀ s : String, s ∉ (["OK", "WA", "PE", "TL", "ML", "RT"] : List String) →
      translateVerdict (some s) = "CE" := by
  refine ⟨rfl, rfl, rfl, rfl, rfl, rfl, rfl, ?_⟩
  intro s hs
  simp only [List.mem_cons, List.not_mem_nil, or_false, not_or] at hs
  obtain ⟨h1, h2, h3, h4, h5, h6⟩ := hs
  rw [translateVerdict, verdictMap]
  rw [if_neg h1, if_neg h2, if_neg h3, if_neg h4, if_neg h5, if_neg h6]
  rfl

/-- Closed instance of C5 at the unknown status code `XX`. -/
theorem claim_C5_witness : translateVerdict (some "XX") = "CE" :=
  claim_C5.2.2.2.2.2.2.2 "XX" (by decide)

/-- C6: the duration formatter maps 0 s to `0:00:00.000`, 3661 s to
`1:01:01.000` and 36000 s to `10:00:00.000` (two-digit hour, no days field). -/
theorem claim_C6 :
    format_hms_sss 0 = "0:00:00.000" ∧ format_hms_sss 3661 = "1:01:01.000" ∧
    format_hms_sss 36000 = "10:00:00.000" := by
  refine ⟨?_, ?_, ?_⟩ <;> decide

/-- C7: formatting any whole number of seconds with the duration formatter and
parsing the `H:MM:SS.mmm` string back yields the same number of seconds. -/
theorem claim_C7 (s : Nat) : parseHms (format_hms_sss s) = some s :=
  parseHms_format s

/-- Closed instance of C7 at 3661 s. -/
theorem claim_C7_witness : parseHms (format_hms_sss 3661) = some 3661 :=
  claim_C7 3661

/- ### Claims C8 - C9 -/

theorem strAppend_assoc (a b c : String) : a ++ b ++ c = a ++ (b ++ c) := by
  cases a with
  | mk as =>
    cases b with
    | mk bs =>
      cases c with
      | mk cs =>
        show String.mk (as ++ bs ++ cs) = String.mk (as ++ (bs ++ cs))
        rw [List.append_assoc]

/-- C8: when the input cannot be located or parsed (the caught
`FileNotFoundError` / `ParseError` case), the converter prints one error
message that contains the input path and the underlying cause, and returns
normally without writing the event-feed file. -/
theorem claim_C8 (path outDir cause : String) (clock : Nat → String) :
    (runConverter path outDir (Except.error cause) clock).feedFile = none ∧
    (runConverter path outDir (Except.error cause) clock).crashed = false ∧
    ∃ msg, (runConverter path outDir (Except.error cause) clock).printed = [msg] ∧
      (∃ a b, msg = a ++ path ++ b) ∧ ∃ c, msg = c ++ cause := by
  refine ⟨rfl, rfl, parseErrorMsg path cause, rfl, ?_, ?_⟩
  · refine ⟨"Error: Could not process " ++ sq, sq ++ ": " ++ cause, ?_⟩
    simp only [parseErrorMsg, strAppend_assoc]
  · exact ⟨"Error: Could not process " ++ sq ++ path ++ sq ++ ": ", rfl⟩

/-- Closed instance of C8. -/
theorem claim_C8_witness :
    (runConverter "in.xml" "out" (Except.error "syntax error: line 1") exClock).feedFile =
      none ∧
    (runConverter "in.xml" "out" (Except.error "syntax error: line 1") exClock).crashed =
      false ∧
    ∃ msg, (runConverter "in.xml" "out" (Except.error "syntax error: line 1")
        exClock).printed = [msg] ∧
      (∃ a b, msg = a ++ "in.xml" ++ b) ∧ ∃ c, msg = c ++ "syntax error: line 1" :=
  claim_C8 "in.xml" "out" "syntax error: line 1" exClock

/-- C9: the output directory is ensured to exist before the parse attempt, on
every run; a failed run therefore leaves the directory created but writes no
event-feed file. -/
theorem claim_C9 (path outDir cause : String) (clock : Nat → String)
    (pr : Except String Document) :
    (runConverter path outDir pr clock).dirCreated = true ∧
    (runConverter path outDir (Except.error cause) clock).dirCreated = true ∧
    (runConverter path outDir (Except.error cause) clock).feedFile = none := by
  refine ⟨?_, rfl, rfl⟩
  cases pr with
  | error e => rfl
  | ok doc =>
    rw [runConverter]
    cases createIcpcEvents doc clock <;> rfl

/-- Closed instance of C9. -/
theorem claim_C9_witness :
    (runConverter "in.xml" "out" (Except.ok exampleDoc) exClock).dirCreated = true ∧
    (runConverter "in.xml" "out" (Except.error "missing file") exClock).dirCreated = true ∧
    (runConverter "in.xml" "out" (Except.error "missing file") exClock).feedFile = none :=
  claim_C9 "in.xml" "out" "missing file" exClock (Except.ok exampleDoc)

/- ### Claim C10 -/

/-- C10: for a fixed input document, two runs of the converter differ at most
in the `token` field of each event: the streams have the same length and agree
event by event on `type`, `op` and `data`. -/
theorem claim_C10 (doc : Document) (clock1 clock2 : Nat → String)
    (evs1 evs2 : List Event)
    (h1 : createIcpcEvents doc clock1 = some evs1)
    (h2 : createIcpcEvents doc clock2 = some evs2) :
    evs1.length = evs2.length ∧ evs1.map Event.strip = evs2.map Event.strip := by
  obtain ⟨st1, hst1, he1⟩ := createIcpcEvents_inv h1
  obtain ⟨st2, hst2, he2⟩ := createIcpcEvents_inv h2
  rw [hst1] at hst2
  injection hst2 with hst
  subst hst
  subst he1
  subst he2
  constructor
  · rw [length_attachTokens, length_attachTokens]
  · rw [map_strip_attachTokens, map_strip_attachTokens]

/-- Closed instance of C10: the example document under two different clocks. -/
theorem claim_C10_witness :
    exEvents.length = exEvents2.length ∧
    exEvents.map Event.strip = exEvents2.map Event.strip :=
  claim_C10 exampleDoc exClock exClock2 exEvents exEvents2 rfl rfl

/- ### Witnesses for claims C2 - C4 -/

/-- Closed instance of C2 on the example document. -/
theorem claim_C2_witness :
    exEvents.countP (fun e => isSubSpec e.strip) = exampleDoc.runs.length ∧
    exEvents.countP (fun e => isJudSpec e.strip) = exampleDoc.runs.length ∧
    (exEvents.filter (fun e => isSubSpec e.strip)).map (fun e => strField "id" e.data) =
      exampleDoc.runs.map Run.run_id ∧
    AdjPairs exEvents :=
  claim_C2 exampleDoc exClock exEvents rfl

/-- Closed instance of C3 on the example document and organization `TeamA`. -/
theorem claim_C3_witness :
    exEvents.countP (fun e => isOrgWith "TeamA" e.strip) = 1 ∧
    OrgBefore "TeamA" exEvents :=
  claim_C3 exampleDoc exClock exEvents rfl "TeamA"
    ⟨⟨"u1", "TeamA: John"⟩, List.mem_singleton.mpr rfl, rfl⟩

/-- Closed instance of C4 on the example document. -/
theorem claim_C4_witness :
    ∃ st, parseStartTime exampleDoc.start_time = some st ∧
      exEvents.map Event.strip =
        preSpecs exampleDoc st ++ segmentsAux [] exampleDoc.users ++
          postSpecs exampleDoc st :=
  claim_C4 exampleDoc exClock exEvents rfl

/- ### Sanity checks on the calendar embedding -/

/-- The civil-date conversions invert each other on spot dates, including a
leap day. -/
theorem calendar_spot_checks :
    civilFromDays (daysFromCivil 2024 1 1) = (2024, 1, 1) ∧
    civilFromDays (daysFromCivil 2023 12 31) = (2023, 12, 31) ∧
    civilFromDays (daysFromCivil 2024 2 29 + 1) = (2024, 3, 1) := by
  refine ⟨?_, ?_, ?_⟩ <;> decide

/-- The start-time parser and `isoformat` behave as `strptime`/`isoformat` do
on the example start time, and reject an out-of-range month. -/
theorem parseStartTime_spot_checks :
    (parseStartTime "2024/01/01 10:00:00").map isoformat =
      some "2024-01-01T10:00:00+03:00" ∧
    (parseStartTime "2024/01/01 10:00:00").map (fun st => isoformat (st + 18000)) =
      some "2024-01-01T15:00:00+03:00" ∧
    parseStartTime "2024/13/01 10:00:00" = none := by
  refine ⟨?_, ?_, ?_⟩ <;> decide

end E2I
